import Mathlib

/-!
Verification of the core of `semantic-fs` (`src/fs.ts`): the path containment
guard (`validatePath` and its helpers `normalizePath`, `expandHome`) and the
patch-application engine (`applyFileEdits` with `normalizeLineEndings`).

The TypeScript source is shallowly embedded: JavaScript strings are modelled
as Lean `String` (sequences of characters; all inputs of interest are ASCII,
where JS UTF-16 code units and characters coincide), the Node `path` functions
used by the source (`normalize`, `resolve`, `join`, `dirname`, `isAbsolute`)
are implemented for POSIX separators following Node's algorithms, JS exceptions
are modelled with `Except String` (the thrown `Error` message), and the two
`try`/`catch` blocks of `validatePath` are modelled by matching on the
`Except` value of the guarded block.  The filesystem itself appears only
through `realpath`, modelled as an explicit oracle `String → Option String`
(`none` = the call rejects, e.g. ENOENT).
-/

namespace SemanticFs

/-- JS `\s` whitespace test, restricted to the ASCII whitespace characters
(the inputs of interest contain no Unicode space characters). -/
def jsIsWhitespace (c : Char) : Bool :=
  c = ' ' || c = '\t' || c = '\n' || c = '\r' || c = '\x0b' || c = '\x0c'

/-- JS `String.prototype.trim`: strip leading and trailing whitespace. -/
def jsTrim (s : String) : String :=
  ⟨((s.data.dropWhile jsIsWhitespace).reverse.dropWhile jsIsWhitespace).reverse⟩

/-- JS `String.prototype.trimStart`: strip leading whitespace. -/
def jsTrimStart (s : String) : String :=
  ⟨s.data.dropWhile jsIsWhitespace⟩

/-- The string matched by the regex `/^\s*/`: the leading whitespace run.
Models `line.match(/^\s*/)?.[0] || ""` in the source. -/
def leadingWhitespaceOf (s : String) : String :=
  ⟨s.data.takeWhile jsIsWhitespace⟩

/-- JS `" ".repeat(n)`. -/
def spacesRepeat (n : Nat) : String :=
  ⟨List.replicate n ' '⟩

/-- JS `s.startsWith(pre)`. -/
def jsStartsWith (s pre : String) : Bool :=
  pre.data.isPrefixOf s.data

/-- Index of the first occurrence of `pat` in a character list
(JS `String.prototype.indexOf`; `some 0` for the empty pattern). -/
def firstIdxL (pat : List Char) : List Char → Option Nat
  | [] => if pat.isPrefixOf [] then some 0 else none
  | c :: rest =>
    if pat.isPrefixOf (c :: rest) then some 0
    else (firstIdxL pat rest).map (· + 1)

/-- Index of the first occurrence of `pat` in `s`, as in JS `s.indexOf(pat)`. -/
def firstIndexOf (s pat : String) : Option Nat :=
  firstIdxL pat.data s.data

/-- JS `s.includes(pat)`. -/
def jsIncludes (s pat : String) : Bool :=
  (firstIndexOf s pat).isSome

/-- ECMAScript `GetSubstitution` for a plain-string search: in the
replacement text, `$$` yields a dollar sign, `$&` yields the matched text,
a dollar sign followed by a backquote (`Char.ofNat 96`) yields the portion
of the subject before the match, and a dollar sign followed by a single
quote (`Char.ofNat 39`) yields the portion after the match.  With a string
pattern there are no capture groups and no named captures, so `$n` and
`$<` (and any other dollar sequence, or a trailing dollar) pass through
literally. -/
def getSubstitutionL (matched before after : List Char) : List Char → List Char
  | [] => []
  | c :: rest =>
    if c = '$' then
      match rest with
      | [] => ['$']
      | c2 :: rest2 =>
        if c2 = '$' then '$' :: getSubstitutionL matched before after rest2
        else if c2 = '&' then matched ++ getSubstitutionL matched before after rest2
        else if c2 = Char.ofNat 96 then before ++ getSubstitutionL matched before after rest2
        else if c2 = Char.ofNat 39 then after ++ getSubstitutionL matched before after rest2
        else '$' :: c2 :: getSubstitutionL matched before after rest2
    else c :: getSubstitutionL matched before after rest

/-- Replace the first occurrence of `pat` by the `GetSubstitution` of `rep`
(no occurrence: unchanged).  For a string search the matched text is `pat`
itself, the before-text is the prefix up to the match and the after-text
is the suffix past the match, per the ECMAScript `replace` algorithm. -/
def replaceFirstL (s pat rep : List Char) : List Char :=
  match firstIdxL pat s with
  | none => s
  | some p =>
    s.take p ++ getSubstitutionL pat (s.take p) (s.drop (p + pat.length)) rep ++
      s.drop (p + pat.length)

/-- JS `s.replace(pat, rep)` with a plain-string `pat`: replaces only the
first occurrence; the replacement string is interpreted through
`GetSubstitution` (so `$$`, `$&`, dollar-backquote and dollar-quote are
substituted, everything else is literal). -/
def jsReplaceFirst (s pat rep : String) : String :=
  ⟨replaceFirstL s.data pat.data rep.data⟩

/-- Split a character list at every occurrence of `sep`
(JS `String.prototype.split` with a one-character separator). -/
def splitCharAux (sep : Char) : List Char → List Char → List String
  | [], acc => [String.mk acc.reverse]
  | c :: rest, acc =>
    if c = sep then String.mk acc.reverse :: splitCharAux sep rest []
    else splitCharAux sep rest (c :: acc)

/-- JS `s.split(sep)` for a one-character separator string. -/
def splitChar (sep : Char) (s : String) : List String :=
  splitCharAux sep s.data []

/-- JS `array.join(sep)`. -/
def joinWith (sep : String) : List String → String
  | [] => ""
  | [l] => l
  | l :: rest => l ++ sep ++ joinWith sep rest

/-- `normalizeLineEndings` from `src/fs.ts`:
`text.replace(/\r\n/g, "\n")` — every (non-overlapping, left-to-right)
occurrence of CRLF becomes LF. -/
def normLEL : List Char → List Char
  | [] => []
  | '\r' :: '\n' :: rest => '\n' :: normLEL rest
  | c :: rest => c :: normLEL rest

/-- `normalizeLineEndings` from `src/fs.ts` on `String`. -/
def normalizeLineEndings (text : String) : String :=
  ⟨normLEL text.data⟩

/-! ## PatchEngine: `applyFileEdits` (src/fs.ts lines 202-265) -/

/-- The `EditOperation` schema of `src/fs.ts`: a `(oldText, newText)` pair. -/
structure EditOperation where
  oldText : String
  newText : String
deriving DecidableEq

/-- The trimmed-line window comparison of the fuzzy tier:
`oldLines.every((oldLine, j) => oldLine.trim() === potentialMatch[j].trim())`
where `potentialMatch = contentLines.slice(i, i + oldLines.length)`. -/
def fuzzyMatchesAt (oldLines contentLines : List String) (i : Nat) : Bool :=
  (oldLines.zip ((contentLines.drop i).take oldLines.length)).all
    fun pr => jsTrim pr.1 == jsTrim pr.2

/-- The fuzzy-tier scan of `applyFileEdits`: the first window start
`i ∈ [0, contentLines.length - oldLines.length]` whose trimmed lines all
match (`none` when no window matches; when `oldLines` is longer than
`contentLines` the loop body never runs). -/
def findFuzzyIndex (oldLines contentLines : List String) : Option Nat :=
  (List.range (contentLines.length + 1 - oldLines.length)).find?
    fun i => fuzzyMatchesAt oldLines contentLines i

/-- The indentation-reconciliation `map` of `applyFileEdits`
(src/fs.ts lines 233-246): line 0 of the replacement takes `originalIndent`
with its own leading whitespace stripped; a later line `j` whose
corresponding `oldText` line and own text both have non-empty leading
whitespace is re-indented by `originalIndent` plus
`max 0 (newIndent.length - oldIndent.length)` spaces; otherwise it is
emitted unmodified. -/
def reconcileNewLines (originalIndent : String) (oldLines newLines : List String) :
    List String :=
  newLines.mapIdx fun j line =>
    if j = 0 then originalIndent ++ jsTrimStart line
    else
      let oldIndent := leadingWhitespaceOf (oldLines.getD j "")
      let newIndent := leadingWhitespaceOf line
      if oldIndent != "" && newIndent != "" then
        originalIndent ++
          spacesRepeat (max 0 ((newIndent.length : Int) - (oldIndent.length : Int))).toNat ++
          jsTrimStart line
      else line

/-- One iteration of the `for (const edit of edits)` loop of `applyFileEdits`:
the exact-substring tier, then the fuzzy line tier with indentation
reconciliation and splice, and otherwise the thrown
`Could not find exact match for edit` error. -/
def applyEdit (modifiedContent : String) (edit : EditOperation) : Except String String :=
  let normalizedOld := normalizeLineEndings edit.oldText
  let normalizedNew := normalizeLineEndings edit.newText
  if jsIncludes modifiedContent normalizedOld then
    Except.ok (jsReplaceFirst modifiedContent normalizedOld normalizedNew)
  else
    let oldLines := splitChar '\n' normalizedOld
    let contentLines := splitChar '\n' modifiedContent
    match findFuzzyIndex oldLines contentLines with
    | some i =>
      let originalIndent := leadingWhitespaceOf (contentLines.getD i "")
      let newLines := reconcileNewLines originalIndent oldLines (splitChar '\n' normalizedNew)
      Except.ok (joinWith "\n"
        (contentLines.take i ++ newLines ++ contentLines.drop (i + oldLines.length)))
    | none => Except.error ("Could not find exact match for edit:\n" ++ edit.oldText)

/-- The whole edit loop of `applyFileEdits` over the (already line-ending
normalized) in-memory document; a thrown error aborts the loop. -/
def applyEditsLoop : String → List EditOperation → Except String String
  | content, [] => Except.ok content
  | content, edit :: rest =>
    match applyEdit content edit with
    | Except.ok c => applyEditsLoop c rest
    | Except.error e => Except.error e

/-- `applyFileEdits` of `src/fs.ts`: the file content is line-ending
normalized and the edit loop is run; the modified content is returned
(`dryRun` only decides whether `Bun.write` runs, it never changes the
returned content). -/
def applyFileEdits (fileContent : String) (edits : List EditOperation) :
    Except String String :=
  applyEditsLoop (normalizeLineEndings fileContent) edits

/-- The content persisted in storage after a call of `applyFileEdits` whose
file held `fileContent`: `Bun.write(filePath, modifiedContent)` is reached
only when the edit loop finished without throwing and `dryRun` is false;
a thrown error propagates before the write, leaving the file unchanged. -/
def persistedContent (fileContent : String) (edits : List EditOperation)
    (dryRun : Bool) : String :=
  match applyEditsLoop (normalizeLineEndings fileContent) edits with
  | Except.error _ => fileContent
  | Except.ok modifiedContent => if dryRun then fileContent else modifiedContent

/-- Swapping `oldText` and `newText` of one operation (used by the
round-trip property of the spec). -/
def swapEdit (e : EditOperation) : EditOperation :=
  ⟨e.newText, e.oldText⟩

/-- The inverse edit list of the spec's round-trip property: each operation
swapped, in reverse order. -/
def inverseEdits (edits : List EditOperation) : List EditOperation :=
  (edits.map swapEdit).reverse

/-! ## PathGuard: `validatePath` (src/fs.ts lines 75-141) and the Node
`path` functions it uses. -/

/-- Node `path.posix.isAbsolute`. -/
def isAbsolutePath (p : String) : Bool :=
  jsStartsWith p "/"

/-- The segment pass of Node's `normalizeString`: empty and `.` segments are
dropped; `..` pops the previous segment, except that with `allowAboveRoot`
(relative paths) a `..` that cannot pop is kept; for absolute paths a `..`
at the root is dropped.  `acc` holds the emitted segments in reverse. -/
def normSegs (allowAboveRoot : Bool) : List String → List String → List String
  | acc, [] => acc.reverse
  | acc, seg :: rest =>
    if seg = "" ∨ seg = "." then normSegs allowAboveRoot acc rest
    else if seg = ".." then
      match acc with
      | [] =>
        if allowAboveRoot then normSegs allowAboveRoot [".."] rest
        else normSegs allowAboveRoot [] rest
      | top :: accRest =>
        if top = ".." then
          if allowAboveRoot then normSegs allowAboveRoot (".." :: acc) rest
          else normSegs allowAboveRoot accRest rest
        else normSegs allowAboveRoot accRest rest
    else normSegs allowAboveRoot (seg :: acc) rest

/-- Node `path.posix.normalize`. -/
def pathNormalize (p : String) : String :=
  if p = "" then "."
  else
    let isAbs := isAbsolutePath p
    let trailingSep := p.data.getLastD ' ' = '/'
    let body := joinWith "/" (normSegs (!isAbs) [] (splitChar '/' p))
    if body = "" then
      if isAbs then "/" else if trailingSep then "./" else "."
    else
      let body := if trailingSep then body ++ "/" else body
      if isAbs then "/" ++ body else body

/-- Node `path.posix.resolve(cwd, p)` for an absolute working directory
`cwd` (as `process.cwd()` always is): an absolute `p` is used as is,
otherwise it is resolved against `cwd`; the result is the
normalized absolute path without a trailing separator.
`path.resolve(p)` for absolute `p` coincides with this. -/
def pathResolve (cwd p : String) : String :=
  let resolvedPath := if isAbsolutePath p then p else cwd ++ "/" ++ p
  "/" ++ joinWith "/" (normSegs false [] (splitChar '/' resolvedPath))

/-- Node `path.posix.join` for the two-argument use in `expandHome`
(empty parts are skipped; the joined string is normalized). -/
def pathJoin2 (a b : String) : String :=
  if a = "" ∧ b = "" then "."
  else pathNormalize (if a = "" then b else if b = "" then a else a ++ "/" ++ b)

/-- Node `path.posix.dirname`'s backward scan: over the characters in
reverse order with their indices, skip the trailing run of `/`, then return
the index of the next `/` at position ≥ 1 (`none` when there is none —
Node's loop stops before index 0). -/
def dirnameEndAux : List Char → Nat → Bool → Option Nat
  | [], _, _ => none
  | c :: rest, i, matchedSlash =>
    if i = 0 then none
    else if c = '/' then
      if matchedSlash then dirnameEndAux rest (i - 1) matchedSlash
      else some i
    else dirnameEndAux rest (i - 1) false

/-- Node `path.posix.dirname`. -/
def dirname (p : String) : String :=
  if p.data.length = 0 then "."
  else
    let hasRoot := p.data.headD ' ' = '/'
    match dirnameEndAux p.data.reverse (p.data.length - 1) true with
    | none => if hasRoot then "/" else "."
    | some e => if hasRoot ∧ e = 1 then "//" else ⟨p.data.take e⟩

/-- JS `String.prototype.slice(1)` (drop the first character), as used in
`expandHome` on a `~`-prefixed path. -/
def sliceFrom1 (s : String) : String :=
  ⟨s.data.drop 1⟩

/-- JS `s.toLowerCase()`, restricted to ASCII case folding (the inputs of
interest are ASCII). -/
def jsToLowerCase (s : String) : String :=
  ⟨s.data.map Char.toLower⟩

/-- `normalizePath` from `src/fs.ts`: `path.normalize(p).toLowerCase()`. -/
def normalizePath (p : String) : String :=
  jsToLowerCase (pathNormalize p)

/-- `expandHome` from `src/fs.ts`: a leading `~/` (or a bare `~`) is
replaced via `path.join(os.homedir(), filepath.slice(1))`. -/
def expandHome (homedir filepath : String) : String :=
  if jsStartsWith filepath "~/" || filepath == "~" then
    pathJoin2 homedir (sliceFrom1 filepath)
  else filepath

/-- The containment test used (three times) by `validatePath`:
`allowedDirectories.some((dir) => normalizedPath.startsWith(dir))`. -/
def isPathAllowed (normalizedPath : String) (allowedDirectories : List String) : Bool :=
  allowedDirectories.any fun dir => jsStartsWith normalizedPath dir

/-- The absolutization prefix of `validatePath` (src/fs.ts lines 95-98):
home expansion followed by `path.resolve` (against `cwd` when the expanded
path is relative). -/
def absoluteOf (homedir cwd requestedPath : String) : String :=
  pathResolve cwd (expandHome homedir requestedPath)

/-- `validatePath` from `src/fs.ts`.  `realpathFS` is the filesystem's
`realpath` (`none` models a rejected promise, e.g. ENOENT).  The outer
`try { ... } catch (error) { ... }` catches *any* error thrown in its block —
including the `Access denied - symlink target outside allowed directories`
throw — and the inner `try { ... } catch { ... }` likewise swallows the
`Access denied - parent directory outside allowed directories` throw,
replacing it by the `Parent directory does not exist` error. -/
def validatePath (homedir cwd : String) (realpathFS : String → Option String)
    (requestedPath : String) (allowedDirectories : List String) :
    Except String String :=
  let absolute := absoluteOf homedir cwd requestedPath
  let normalizedRequested := normalizePath absolute
  if !isPathAllowed normalizedRequested allowedDirectories then
    Except.error ("Access denied - path outside allowed directories: " ++ absolute ++
      " not in " ++ joinWith ", " allowedDirectories)
  else
    let outerTry : Except String String :=
      match realpathFS absolute with
      | none => Except.error "realpath failed"
      | some realPath =>
        let normalizedReal := normalizePath realPath
        if !isPathAllowed normalizedReal allowedDirectories then
          Except.error "Access denied - symlink target outside allowed directories"
        else Except.ok realPath
    match outerTry with
    | Except.ok r => Except.ok r
    | Except.error _ =>
      let parentDir := dirname absolute
      let innerTry : Except String String :=
        match realpathFS parentDir with
        | none => Except.error "realpath failed"
        | some realParentPath =>
          let normalizedParent := normalizePath realParentPath
          if !isPathAllowed normalizedParent allowedDirectories then
            Except.error "Access denied - parent directory outside allowed directories"
          else Except.ok absolute
      match innerTry with
      | Except.ok r => Except.ok r
      | Except.error _ => Except.error ("Parent directory does not exist: " ++ parentDir)

/-! ## Helper lemmas -/

theorem firstIdxL_nil_pat (s : List Char) : firstIdxL [] s = some 0 := by
  cases s with
  | nil => rfl
  | cons c rest => rfl

theorem firstIdxL_le_length {pat : List Char} :
    ∀ {s : List Char} {p : Nat}, firstIdxL pat s = some p → p ≤ s.length := by
  intro s
  induction s with
  | nil =>
    intro p h
    unfold firstIdxL at h
    split at h
    · cases h; exact Nat.le_refl 0
    · cases h
  | cons c rest ih =>
    intro p h
    unfold firstIdxL at h
    split at h
    · cases h; exact Nat.zero_le _
    · rw [Option.map_eq_some'] at h
      obtain ⟨q, hq, rfl⟩ := h
      exact Nat.succ_le_succ (ih hq)

theorem firstIdxL_decomp {pat : List Char} :
    ∀ {s : List Char} {p : Nat}, firstIdxL pat s = some p →
      s = s.take p ++ pat ++ s.drop (p + pat.length) := by
  intro s
  induction s with
  | nil =>
    intro p h
    unfold firstIdxL at h
    split at h
    case isTrue hpre =>
      cases h
      have hp : pat = [] := by
        cases pat with
        | nil => rfl
        | cons a l => simp at hpre
      subst hp; rfl
    case isFalse => cases h
  | cons c rest ih =>
    intro p h
    unfold firstIdxL at h
    split at h
    case isTrue hpre =>
      cases h
      obtain ⟨t, ht⟩ : pat <+: (c :: rest) := List.isPrefixOf_iff_prefix.mp hpre
      have hdrop : (c :: rest).drop pat.length = t := by
        rw [← ht]; exact List.drop_left pat t
      simp only [List.take_zero, List.nil_append, Nat.zero_add]
      rw [hdrop, ht]
    case isFalse =>
      rw [Option.map_eq_some'] at h
      obtain ⟨q, hq, rfl⟩ := h
      have hrw : q + 1 + pat.length = (q + pat.length) + 1 := by omega
      rw [hrw, List.drop_succ_cons, List.take_succ_cons, List.cons_append,
        List.cons_append]
      exact congrArg (c :: ·) (ih hq)

theorem getSubstitutionL_of_not_dollar {matched before after : List Char} :
    ∀ {rep : List Char}, '$' ∉ rep →
      getSubstitutionL matched before after rep = rep := by
  intro rep
  induction rep with
  | nil => intro _; rfl
  | cons c rest ih =>
    intro h
    have hc : c ≠ '$' := fun hh => h (hh ▸ List.mem_cons_self c rest)
    have hrest : '$' ∉ rest := fun hh => h (List.mem_cons_of_mem c hh)
    show getSubstitutionL matched before after (c :: rest) = c :: rest
    unfold getSubstitutionL
    rw [if_neg hc, ih hrest]

theorem replaceFirstL_eq_of_not_dollar {s pat rep : List Char} {p : Nat}
    (hfind : firstIdxL pat s = some p) (hrep : '$' ∉ rep) :
    replaceFirstL s pat rep = s.take p ++ rep ++ s.drop (p + pat.length) := by
  unfold replaceFirstL
  rw [hfind]
  show s.take p ++ getSubstitutionL pat (s.take p) (s.drop (p + pat.length)) rep ++
    s.drop (p + pat.length) = s.take p ++ rep ++ s.drop (p + pat.length)
  rw [getSubstitutionL_of_not_dollar hrep]

theorem replaceFirstL_undo {s a b : List Char} {p : Nat}
    (h1 : firstIdxL a s = some p)
    (h2 : firstIdxL b (replaceFirstL s a b) = some p)
    (ha : '$' ∉ a) (hb : '$' ∉ b) :
    replaceFirstL (replaceFirstL s a b) b a = s := by
  have hd := firstIdxL_decomp h1
  have hp : p ≤ s.length := firstIdxL_le_length h1
  have hlen : (s.take p).length = p := by
    rw [List.length_take]; exact Nat.min_eq_left hp
  have ht : replaceFirstL s a b = s.take p ++ b ++ s.drop (p + a.length) :=
    replaceFirstL_eq_of_not_dollar h1 hb
  rw [ht] at h2 ⊢
  rw [replaceFirstL_eq_of_not_dollar h2 ha]
  have htake : (s.take p ++ b ++ s.drop (p + a.length)).take p = s.take p := by
    rw [List.append_assoc]
    exact List.take_left' hlen
  have hdrop : (s.take p ++ b ++ s.drop (p + a.length)).drop (p + b.length) =
      s.drop (p + a.length) := by
    refine List.drop_left' ?_
    rw [List.length_append, hlen]
  rw [htake, hdrop]
  exact hd.symm

theorem jsReplaceFirst_undo {s a b : String} {p : Nat}
    (h1 : firstIndexOf s a = some p)
    (h2 : firstIndexOf (jsReplaceFirst s a b) b = some p)
    (ha : '$' ∉ a.data) (hb : '$' ∉ b.data) :
    jsReplaceFirst (jsReplaceFirst s a b) b a = s := by
  have h1' : firstIdxL a.data s.data = some p := h1
  have h2' : firstIdxL b.data (replaceFirstL s.data a.data b.data) = some p := h2
  show String.mk (replaceFirstL (replaceFirstL s.data a.data b.data) b.data a.data) = s
  rw [replaceFirstL_undo h1' h2' ha hb]

theorem jsReplaceFirst_empty_pat (s x : String) (hx : '$' ∉ x.data) :
    jsReplaceFirst s "" x = x ++ s := by
  show String.mk (replaceFirstL s.data [] x.data) = x ++ s
  rw [replaceFirstL_eq_of_not_dollar (firstIdxL_nil_pat s.data) hx]
  show String.mk (s.data.take 0 ++ x.data ++ s.data.drop (0 + List.length [])) = x ++ s
  have : s.data.take 0 ++ x.data ++ s.data.drop (0 + List.length ([] : List Char)) =
      x.data ++ s.data := by simp
  rw [this]
  rfl

theorem applyEdit_exact {c : String} {e : EditOperation}
    (h : jsIncludes c (normalizeLineEndings e.oldText) = true) :
    applyEdit c e = Except.ok
      (jsReplaceFirst c (normalizeLineEndings e.oldText)
        (normalizeLineEndings e.newText)) := by
  unfold applyEdit
  simp only [h, if_true]

theorem applyEdit_error_shape {c : String} {e : EditOperation} {msg : String}
    (h : applyEdit c e = Except.error msg) :
    msg = "Could not find exact match for edit:\n" ++ e.oldText := by
  simp only [applyEdit] at h
  split at h
  · exact absurd h (by simp)
  · split at h
    · exact absurd h (by simp)
    · injection h with h'
      exact h'.symm

theorem applyEditsLoop_error_mem :
    ∀ (edits : List EditOperation) (c msg : String),
      applyEditsLoop c edits = Except.error msg →
      ∃ e ∈ edits, msg = "Could not find exact match for edit:\n" ++ e.oldText := by
  intro edits
  induction edits with
  | nil =>
    intro c msg h
    simp [applyEditsLoop] at h
  | cons e rest ih =>
    intro c msg h
    unfold applyEditsLoop at h
    cases he : applyEdit c e with
    | ok c' =>
      rw [he] at h
      obtain ⟨e', he', hm⟩ := ih c' msg h
      exact ⟨e', List.mem_cons_of_mem _ he', hm⟩
    | error m =>
      rw [he] at h
      injection h with h'
      exact ⟨e, List.mem_cons_self e rest, h' ▸ applyEdit_error_shape he⟩

theorem applyEditsLoop_append_ok {l1 : List EditOperation} :
    ∀ {c m : String}, applyEditsLoop c l1 = Except.ok m →
      ∀ l2, applyEditsLoop c (l1 ++ l2) = applyEditsLoop m l2 := by
  induction l1 with
  | nil =>
    intro c m h l2
    injection h with h'
    rw [List.nil_append, h']
  | cons e rest ih =>
    intro c m h l2
    cases he : applyEdit c e with
    | ok c' =>
      simp only [applyEditsLoop, he] at h
      show applyEditsLoop c (e :: (rest ++ l2)) = applyEditsLoop m l2
      simp only [applyEditsLoop, he]
      exact ih h l2
    | error m' =>
      simp only [applyEditsLoop, he] at h
      cases h

/-- The side condition under which the spec's round-trip law does hold: at
every step of the forward application, the (normalized) `oldText` is found
at some index `p`; after the replacement the *first* occurrence of the
(normalized) `newText` is at that same index `p` — so the inverse edit will
put `oldText` back in exactly the spot it came from; and neither the
normalized `oldText` nor the normalized `newText` contains a `$` (which
`GetSubstitution` would rewrite instead of inserting the text verbatim). -/
def ExactUndoable : String → List EditOperation → Prop
  | _, [] => True
  | c, e :: rest =>
    ∃ p, firstIndexOf c (normalizeLineEndings e.oldText) = some p ∧
      firstIndexOf (jsReplaceFirst c (normalizeLineEndings e.oldText)
        (normalizeLineEndings e.newText)) (normalizeLineEndings e.newText) = some p ∧
      '$' ∉ (normalizeLineEndings e.oldText).data ∧
      '$' ∉ (normalizeLineEndings e.newText).data ∧
      ExactUndoable (jsReplaceFirst c (normalizeLineEndings e.oldText)
        (normalizeLineEndings e.newText)) rest

theorem exactUndoable_roundtrip :
    ∀ (edits : List EditOperation) (c : String), ExactUndoable c edits →
      ∃ d, applyEditsLoop c edits = Except.ok d ∧
        applyEditsLoop d (inverseEdits edits) = Except.ok c := by
  intro edits
  induction edits with
  | nil =>
    intro c _
    exact ⟨c, rfl, rfl⟩
  | cons e rest ih =>
    intro c hu
    obtain ⟨p, h1, h2, hnd1, hnd2, hrest⟩ := hu
    obtain ⟨d, hf, hb⟩ := ih _ hrest
    have hstep : applyEdit c e = Except.ok (jsReplaceFirst c
        (normalizeLineEndings e.oldText) (normalizeLineEndings e.newText)) := by
      apply applyEdit_exact
      unfold jsIncludes
      rw [h1]; rfl
    refine ⟨d, ?_, ?_⟩
    · show applyEditsLoop c (e :: rest) = Except.ok d
      simp only [applyEditsLoop, hstep]
      exact hf
    · have hinv : inverseEdits (e :: rest) = inverseEdits rest ++ [swapEdit e] := by
        simp [inverseEdits]
      rw [hinv, applyEditsLoop_append_ok hb]
      show applyEditsLoop (jsReplaceFirst c (normalizeLineEndings e.oldText)
        (normalizeLineEndings e.newText)) [swapEdit e] = Except.ok c
      have h2' : jsIncludes (jsReplaceFirst c (normalizeLineEndings e.oldText)
          (normalizeLineEndings e.newText))
          (normalizeLineEndings (swapEdit e).oldText) = true := by
        show (firstIndexOf (jsReplaceFirst c (normalizeLineEndings e.oldText)
          (normalizeLineEndings e.newText)) (normalizeLineEndings e.newText)).isSome = true
        rw [h2]; rfl
      have hstep2 := applyEdit_exact h2'
      simp only [applyEditsLoop, hstep2]
      show Except.ok (jsReplaceFirst (jsReplaceFirst c (normalizeLineEndings e.oldText)
        (normalizeLineEndings e.newText)) (normalizeLineEndings e.newText)
        (normalizeLineEndings e.oldText)) = Except.ok c
      rw [jsReplaceFirst_undo h1 h2 hnd1 hnd2]

/-! ## The claims -/

/-- C1: the claim says a request whose coarse check passes but whose realpath
resolves outside every allowed root is rejected with AccessDenied.  The code
does the opposite: the `Access denied - symlink target outside allowed
directories` throw sits inside its own `try` block, is swallowed by the
`catch`, and the parent-directory fallback then *accepts* the path.  At the
claim's own scenario — root `/allowed`, a symlink `/allowed/link` whose
realpath is `/etc/secret` — `validatePath` succeeds and returns the symlink
path. -/
theorem claim_C1_symlink_escape_is_accepted :
    validatePath "/home/u" "/"
      (fun p => if p = "/allowed/link" then some "/etc/secret"
        else if p = "/allowed" then some "/allowed" else none)
      "/allowed/link" ["/allowed"] = Except.ok "/allowed/link" := rfl

/-- C2: when the normalized absolute form of the requested path does not
start with any allowed root (the roots being already normalized, per the
AllowedRootSet invariant), `validatePath` fails with the AccessDenied error
— and the result is the same for *every* realpath oracle, i.e. no
filesystem access influences (or is needed for) the outcome. -/
theorem claim_C2_coarse_reject_before_fs (homedir cwd requestedPath : String)
    (allowedDirectories : List String) (realpathFS : String → Option String)
    (h : isPathAllowed (normalizePath (absoluteOf homedir cwd requestedPath))
      allowedDirectories = false) :
    validatePath homedir cwd realpathFS requestedPath allowedDirectories =
      Except.error ("Access denied - path outside allowed directories: " ++
        absoluteOf homedir cwd requestedPath ++ " not in " ++
        joinWith ", " allowedDirectories) := by
  simp [validatePath, h]

/-- Witness for C2 at a concrete input: `/etc/passwd` against root
`/allowed`. -/
theorem claim_C2_witness :
    isPathAllowed (normalizePath (absoluteOf "/home/u" "/" "/etc/passwd"))
      ["/allowed"] = false ∧
    validatePath "/home/u" "/" (fun _ => none) "/etc/passwd" ["/allowed"] =
      Except.error ("Access denied - path outside allowed directories: " ++
        absoluteOf "/home/u" "/" "/etc/passwd" ++ " not in " ++
        joinWith ", " ["/allowed"]) :=
  ⟨rfl, claim_C2_coarse_reject_before_fs "/home/u" "/" "/etc/passwd" ["/allowed"]
    (fun _ => none) rfl⟩

/-- C3: the three branches for a path that passes the coarse check but whose
own realpath fails, with root `/allowed` and request `/allowed/sub/file`:
(a) the parent's realpath also fails → `Parent directory does not exist`
(as claimed); (b) the parent resolves to `/outside/sub`, outside every root
— the claim says AccessDenied, but the code's `Access denied - parent
directory outside allowed directories` throw is swallowed by the inner
`catch` and converted into the same `Parent directory does not exist`
NotFound error; (c) the parent resolves inside a root → the absolute
(non-realpath) form is returned (as claimed). -/
theorem claim_C3_nonexistent_target_branches :
    validatePath "/home/u" "/" (fun _ => none) "/allowed/sub/file" ["/allowed"] =
      Except.error "Parent directory does not exist: /allowed/sub" ∧
    validatePath "/home/u" "/"
      (fun p => if p = "/allowed/sub" then some "/outside/sub" else none)
      "/allowed/sub/file" ["/allowed"] =
      Except.error "Parent directory does not exist: /allowed/sub" ∧
    validatePath "/home/u" "/"
      (fun p => if p = "/allowed/sub" then some "/allowed/sub" else none)
      "/allowed/sub/file" ["/allowed"] = Except.ok "/allowed/sub/file" :=
  ⟨rfl, rfl, rfl⟩

/-- C4: containment is a raw string-prefix test on normalized paths: any
path whose normalized form extends a normalized root as a plain string
prefix passes the check used by `validatePath`, and in particular root
`/data/foo` accepts `/data/foobar` — both in the coarse check alone and
through a full `validatePath` call (with a realpath oracle that returns the
path itself). -/
theorem claim_C4_string_prefix_containment (p r : String) (roots : List String)
    (hmem : r ∈ roots)
    (hpre : jsStartsWith (normalizePath p) (normalizePath r) = true) :
    isPathAllowed (normalizePath p) (roots.map normalizePath) = true ∧
    isPathAllowed (normalizePath "/data/foobar") ["/data/foo"] = true ∧
    validatePath "/home/u" "/" (fun q => some q) "/data/foobar" ["/data/foo"] =
      Except.ok "/data/foobar" := by
  refine ⟨?_, rfl, rfl⟩
  unfold isPathAllowed
  rw [List.any_eq_true]
  exact ⟨normalizePath r, List.mem_map_of_mem normalizePath hmem, hpre⟩

/-- Witness for C4 at the claim's own instance: root `/data/foo`, path
`/data/foobar`. -/
theorem claim_C4_witness :
    ("/data/foo" : String) ∈ (["/data/foo"] : List String) ∧
    jsStartsWith (normalizePath "/data/foobar") (normalizePath "/data/foo") = true ∧
    isPathAllowed (normalizePath "/data/foobar")
      ((["/data/foo"] : List String).map normalizePath) = true :=
  ⟨List.mem_cons_self _ _, rfl,
    (claim_C4_string_prefix_containment "/data/foobar" "/data/foo" ["/data/foo"]
      (List.mem_cons_self _ _) rfl).1⟩

/-- C5 counterexample: the claim's universally quantified conclusion —
the first occurrence is replaced *with `newText`* — fails when `newText`
contains an ECMAScript substitution pattern: replacing `"b"` by `"$&"`
(dollar-ampersand, which `GetSubstitution` rewrites to the matched text)
in `"abc"` re-inserts `"b"`, leaving `"abc"` instead of the claimed
`"a$&c"`.  The `oldText` occurs verbatim, so this is the exact tier. -/
theorem claim_C5_counterexample :
    jsIncludes "abc" (normalizeLineEndings "b") = true ∧
    applyEdit "abc" ⟨"b", "$&"⟩ = Except.ok "abc" ∧
    ("abc" : String) ≠ "a$&c" :=
  ⟨rfl, rfl, by decide⟩

/-- C5 amended: when the line-ending-normalized `oldText` occurs verbatim
in the current document (first occurrence at index `p`) and the normalized
`newText` contains no dollar character, `applyEdit` returns the exact-tier
result — the first occurrence replaced by `newText` itself — and the fuzzy
tier is never consulted, even when a whitespace-different near-match exists
earlier.  (In general the inserted text is the ECMAScript `GetSubstitution`
of `newText`.) -/
theorem claim_C5_amended_exact_precedence (modifiedContent : String)
    (edit : EditOperation) (p : Nat)
    (hp : firstIndexOf modifiedContent (normalizeLineEndings edit.oldText) = some p)
    (hnd : '$' ∉ (normalizeLineEndings edit.newText).data) :
    applyEdit modifiedContent edit = Except.ok
      ⟨modifiedContent.data.take p ++ (normalizeLineEndings edit.newText).data ++
        modifiedContent.data.drop
          (p + (normalizeLineEndings edit.oldText).data.length)⟩ := by
  have hinc : jsIncludes modifiedContent (normalizeLineEndings edit.oldText) = true := by
    unfold jsIncludes
    rw [hp]; rfl
  rw [applyEdit_exact hinc]
  show Except.ok (String.mk (replaceFirstL modifiedContent.data
    (normalizeLineEndings edit.oldText).data
    (normalizeLineEndings edit.newText).data)) = _
  rw [replaceFirstL_eq_of_not_dollar hp hnd]

/-- Witness for C5 at a concrete input: in `"  a b\na b"` the first verbatim
occurrence of `"a b"` (index 2) is replaced by `"a c"`. -/
theorem claim_C5_witness :
    firstIndexOf "  a b\na b" (normalizeLineEndings "a b") = some 2 ∧
    '$' ∉ (normalizeLineEndings "a c").data ∧
    applyEdit "  a b\na b" ⟨"a b", "a c"⟩ = Except.ok
      ⟨("  a b\na b" : String).data.take 2 ++ (normalizeLineEndings "a c").data ++
        ("  a b\na b" : String).data.drop
          (2 + (normalizeLineEndings "a b").data.length)⟩ :=
  ⟨rfl, by decide,
    claim_C5_amended_exact_precedence "  a b\na b" ⟨"a b", "a c"⟩ 2 rfl (by decide)⟩

/-- C6 counterexample: at the claim's own input the document contains
`oldText` verbatim, so the *exact* tier fires and the result is `newText`
unchanged — not the fuzzy-reconciled string the claim asserts. -/
theorem claim_C6_counterexample :
    applyEditsLoop "  if (x) \x7b\n    doThing();\n  \x7d"
      [⟨"  if (x) \x7b\n    doThing();\n  \x7d", "if (x) \x7b\n  doOther();\n\x7d"⟩] =
      Except.ok "if (x) \x7b\n  doOther();\n\x7d" ∧
    ("if (x) \x7b\n  doOther();\n\x7d" : String) ≠ "  if (x) \x7b\n  doOther();\n  \x7d" :=
  ⟨rfl, by decide⟩

/-- C6 amended: on a document where only the fuzzy tier matches (second
line `" doThing();"`, one space, so `oldText` is not a verbatim substring),
the reconciliation of the claim's general rule is applied: line 0 takes the
original indent (two spaces); line 1 has old indent 4 and new indent 2,
delta clamped to 0, so it becomes `"  doOther();"`; line 2's replacement —
a lone closing brace — has no leading whitespace, so it is emitted
unmodified (without the claim's two-space indent).  The second conjunct
shows the reconciliation map itself on the example's lines. -/
theorem claim_C6_amended_reconciliation :
    applyEditsLoop "  if (x) \x7b\n doThing();\n  \x7d"
      [⟨"  if (x) \x7b\n    doThing();\n  \x7d", "if (x) \x7b\n  doOther();\n\x7d"⟩] =
      Except.ok "  if (x) \x7b\n  doOther();\n\x7d" ∧
    reconcileNewLines "  " ["  if (x) \x7b", "    doThing();", "  \x7d"]
      ["if (x) \x7b", "  doOther();", "\x7d"] = ["  if (x) \x7b", "  doOther();", "\x7d"] :=
  ⟨rfl, rfl⟩

/-- C7 counterexample: content `"ba"` with the single edit `a → b`; both
the forward and the inverse application match at the exact tier, yet the
round trip produces `"ab" ≠ "ba"` — the inverse replacement hits the
*other* occurrence of `b`. -/
theorem claim_C7_counterexample :
    jsIncludes "ba" (normalizeLineEndings "a") = true ∧
    applyEditsLoop "ba" [⟨"a", "b"⟩] = Except.ok "bb" ∧
    jsIncludes "bb" (normalizeLineEndings "b") = true ∧
    applyEditsLoop "bb" (inverseEdits [⟨"a", "b"⟩]) = Except.ok "ab" ∧
    ("ab" : String) ≠ "ba" :=
  ⟨rfl, rfl, rfl, rfl, by decide⟩

/-- C7 amended: the round trip holds under the strengthened per-step
condition `ExactUndoable` — each forward step finds its (normalized)
`oldText` at some index `p`; after the replacement, the first occurrence
of the (normalized) `newText` is at that same `p`; and neither text
contains a dollar character (which `GetSubstitution` would rewrite rather
than insert verbatim, breaking the inverse).  Stated over the line-ending
normalized document state on which the edit loop runs. -/
theorem claim_C7_amended_roundtrip (content : String) (edits : List EditOperation)
    (h : ExactUndoable content edits) :
    ∃ d, applyEditsLoop content edits = Except.ok d ∧
      applyEditsLoop d (inverseEdits edits) = Except.ok content :=
  exactUndoable_roundtrip edits content h

/-- Witness for C7 amended: `"hello"` with `ell → ipp`, round-tripping
through `"hippo"`. -/
theorem claim_C7_witness :
    ExactUndoable "hello" [⟨"ell", "ipp"⟩] ∧
    ∃ d, applyEditsLoop "hello" [⟨"ell", "ipp"⟩] = Except.ok d ∧
      applyEditsLoop d (inverseEdits [⟨"ell", "ipp"⟩]) = Except.ok "hello" := by
  have hu : ExactUndoable "hello" [⟨"ell", "ipp"⟩] := by
    refine ⟨1, rfl, rfl, by decide, by decide, ?_⟩
    unfold ExactUndoable
    trivial
  exact ⟨hu, claim_C7_amended_roundtrip "hello" [⟨"ell", "ipp"⟩] hu⟩

/-- C8 counterexample: with an empty allow-list, `validatePath` does not
fail with a distinct ArgumentInvalid error; it falls straight into the
AccessDenied path (`Access denied - path outside allowed directories`),
since `[].some(...)` is false.  No empty-allow-list validation exists in
`validatePath`. -/
theorem claim_C8_counterexample :
    validatePath "/home/u" "/" (fun _ => none) "/data/x" [] =
      Except.error "Access denied - path outside allowed directories: /data/x not in " ∧
    jsStartsWith "Access denied - path outside allowed directories: /data/x not in "
      "Access denied" = true :=
  ⟨rfl, rfl⟩

/-- C8 amended: for every requested path and every realpath oracle, calling
`validatePath` with an empty allow-list fails immediately — before any
filesystem access — but with the AccessDenied error (empty allow-list means
deny-all), not an ArgumentInvalid error. -/
theorem claim_C8_amended_empty_allowlist (homedir cwd requestedPath : String)
    (realpathFS : String → Option String) :
    validatePath homedir cwd realpathFS requestedPath [] =
      Except.error ("Access denied - path outside allowed directories: " ++
        absoluteOf homedir cwd requestedPath ++ " not in " ++ joinWith ", " []) := by
  simp [validatePath, isPathAllowed]

/-- C9: when some edit of the list matches under neither tier, the whole
call surfaces the `Could not find exact match` error naming that edit's
`oldText`, and the persisted file content is unchanged (with `dryRun`
false) — the write step is never reached, even though earlier edits had
already rewritten the in-memory document. -/
theorem claim_C9_failure_atomicity (fileContent : String)
    (edits : List EditOperation)
    (h : ∃ msg, applyEditsLoop (normalizeLineEndings fileContent) edits =
      Except.error msg) :
    persistedContent fileContent edits false = fileContent ∧
    ∃ e ∈ edits, applyFileEdits fileContent edits =
      Except.error ("Could not find exact match for edit:\n" ++ e.oldText) := by
  obtain ⟨msg, hmsg⟩ := h
  constructor
  · unfold persistedContent
    rw [hmsg]
  · obtain ⟨e, he, hm⟩ := applyEditsLoop_error_mem edits _ msg hmsg
    refine ⟨e, he, ?_⟩
    unfold applyFileEdits
    rw [hmsg, hm]

/-- Witness for C9: three edits on `"one\ntwo"`; the first edit applies
(mutating the in-memory state), the second matches nothing, and the
persisted content stays `"one\ntwo"`. -/
theorem claim_C9_witness :
    (∃ msg, applyEditsLoop (normalizeLineEndings "one\ntwo")
      [⟨"one", "1"⟩, ⟨"ZZZ", "x"⟩, ⟨"two", "2"⟩] = Except.error msg) ∧
    persistedContent "one\ntwo" [⟨"one", "1"⟩, ⟨"ZZZ", "x"⟩, ⟨"two", "2"⟩] false =
      "one\ntwo" ∧
    ∃ e ∈ ([⟨"one", "1"⟩, ⟨"ZZZ", "x"⟩, ⟨"two", "2"⟩] : List EditOperation),
      applyFileEdits "one\ntwo" [⟨"one", "1"⟩, ⟨"ZZZ", "x"⟩, ⟨"two", "2"⟩] =
        Except.error ("Could not find exact match for edit:\n" ++ e.oldText) := by
  have h : ∃ msg, applyEditsLoop (normalizeLineEndings "one\ntwo")
      [⟨"one", "1"⟩, ⟨"ZZZ", "x"⟩, ⟨"two", "2"⟩] = Except.error msg :=
    ⟨"Could not find exact match for edit:\nZZZ", rfl⟩
  have := claim_C9_failure_atomicity "one\ntwo"
    [⟨"one", "1"⟩, ⟨"ZZZ", "x"⟩, ⟨"two", "2"⟩] h
  exact ⟨h, this.1, this.2⟩

/-- C10 counterexample: an empty `oldText` does always match at the exact
tier (index 0), but the inserted text is not always `newText`: with
`newText` a dollar followed by a single quote — the ECMAScript after-text
substitution — replacing the empty string at position 0 of `"abc"` inserts
the whole remaining document, yielding `"abcabc"`, not the claimed prepend
of the literal `newText`. -/
theorem claim_C10_counterexample :
    jsIncludes "abc" "" = true ∧
    applyEdit "abc" ⟨"", "$\x27"⟩ = Except.ok "abcabc" ∧
    ("abcabc" : String) ≠ "$\x27" ++ "abc" :=
  ⟨rfl, rfl, by decide⟩

/-- C10 amended: an edit whose `oldText` is the empty string always
succeeds at the exact tier (the empty string is a substring of every
document, found at index 0), so it can never produce the `Could not find
exact match` error; the inserted text is the `GetSubstitution` of the
normalized `newText`, which — whenever `newText` contains no dollar
character — is `newText` itself, prepended to the document. -/
theorem claim_C10_amended_empty_oldText (content newText : String)
    (hnd : '$' ∉ (normalizeLineEndings newText).data) :
    jsIncludes content "" = true ∧
    applyEdit content ⟨"", newText⟩ =
      Except.ok (normalizeLineEndings newText ++ content) := by
  have hinc : jsIncludes content "" = true := by
    show (firstIdxL [] content.data).isSome = true
    rw [firstIdxL_nil_pat]
    rfl
  refine ⟨hinc, ?_⟩
  have h := applyEdit_exact (c := content) (e := ⟨"", newText⟩) hinc
  rw [h]
  rw [show normalizeLineEndings "" = "" from rfl]
  rw [jsReplaceFirst_empty_pat _ _ hnd]

/-- Witness for C10 amended: prepending `"XY"` to `"abc"`. -/
theorem claim_C10_witness :
    ('$' ∉ (normalizeLineEndings "XY").data) ∧
    (jsIncludes "abc" "" = true ∧
      applyEdit "abc" ⟨"", "XY"⟩ =
        Except.ok (normalizeLineEndings "XY" ++ "abc")) :=
  ⟨by decide, claim_C10_amended_empty_oldText "abc" "XY" (by decide)⟩

end SemanticFs
